import Mathlib

/-!
Verification of the `smarter-day/logger` structured-logging facade.

The Go source (`logger_impl.go`, plus an alternate implementation file) is
shallowly embedded below.  The embedding choices are:

* Go `interface{}` values attached to log fields are modelled by the
  inductive type `Value`: a string, an error object (`GoError`, carrying
  the message produced by `errors.New`), or some other opaque value
  (modelled by an integer payload).
* `logrus.Fields` (a Go `map[string]interface{}`) is modelled as an
  association list with unique keys; `insertField` implements the Go map
  write `fields[k] = v` (later write wins), `getField` the map read.
  Go map iteration order is unspecified; the list order is a fixed
  determinization of it, and claims are stated order-insensitively
  (lookups, lengths, multiset-free list equations on one fixed order).
* The process-wide mutable state (`baseLogger`'s severity threshold, the
  stream of emitted records, and the Sentry hub's captured exceptions) is
  an explicit `World` value threaded through the state-changing
  operations.  Every `logrus.Entry` created by this package references the
  single global `baseLogger` (`Log` uses `logrus.NewEntry(baseLogger)` and
  `WithFields` preserves the `Logger` pointer), so a single shared
  `World.level` field is a faithful model of `Entry.Logger.SetLevel`.
* `context.Context` is modelled by `Ctx`: whether a Sentry hub is
  reachable from the context (`hub`), and the Sentry span reachable from
  it, already resolved to its trace-id/span-id strings (`span`).
* `getCallerInfo` inspects the runtime call stack; its result is passed
  to the emit operations as an opaque `caller : String` argument.
* `Fatal` exits the process and `Panic` unwinds the stack after emitting;
  that post-emission control flow is outside the state model, which
  records the world as of the emission itself.
-/

/-- Field-key constants from the source. -/
def ErrorKey : String := "error"

def SpanIdLogKeyName : String := "spanID"

def TraceIdLogKeyName : String := "traceID"

/-- A Go `error` value, identified by its message (`errors.New(msg)`). -/
structure GoError where
  msg : String
deriving DecidableEq

/-- A Go `interface{}` value as it occurs in log fields: a string, an
error object, or any other value (opaque payload). -/
inductive Value where
  | str : String → Value
  | err : GoError → Value
  | int : Int → Value
deriving DecidableEq

/-- The result of the Go type assertion `v.(string)` succeeding. -/
def Value.isStr : Value → Bool
  | .str _ => true
  | _ => false

/-- `logrus.Fields`: a string-keyed map, modelled as an association list
with unique keys (unique by construction: all writes go through
`insertField`). -/
abbrev Fields := List (String × Value)

/-- The Go map write `fields[k] = v`: any existing binding of `k` is
replaced, other bindings are kept. -/
def insertField (f : Fields) (k : String) (v : Value) : Fields :=
  f.filter (fun p => p.1 != k) ++ [(k, v)]

/-- The Go map read `fields[k]`. -/
def getField (f : Fields) (k : String) : Option Value :=
  (f.find? (fun p => p.1 == k)).map Prod.snd

/-- `logrus.Entry.WithFields`: copy the base map, then write every entry
of `extra` into it. -/
def withFields (base extra : Fields) : Fields :=
  extra.foldl (fun acc p => insertField acc p.1 p.2) base

theorem getField_insertField_self (f : Fields) (k : String) (v : Value) :
    getField (insertField f k v) k = some v := by
  unfold getField insertField
  rw [List.find?_append]
  have hnone : (f.filter (fun p => p.1 != k)).find? (fun p => p.1 == k) = none := by
    rw [List.find?_eq_none]
    intro p hp
    have := (List.mem_filter.mp hp).2
    simpa using this
  rw [hnone]
  simp

theorem find?_filter_ne (f : Fields) (k k' : String) (h : k' ≠ k) :
    (f.filter (fun p => p.1 != k)).find? (fun p => p.1 == k')
      = f.find? (fun p => p.1 == k') := by
  induction f with
  | nil => rfl
  | cons a rest ih =>
    by_cases hak : a.1 = k
    · have hfilter : ((a :: rest).filter (fun p => p.1 != k))
          = rest.filter (fun p => p.1 != k) := by
        simp [List.filter_cons, hak]
      have hfind : (a :: rest).find? (fun p => p.1 == k')
          = rest.find? (fun p => p.1 == k') := by
        have : (a.1 == k') = false := by
          simp [hak]
          exact fun hc => absurd hc.symm h
        simp [List.find?, this]
      rw [hfilter, hfind, ih]
    · have hfilter : ((a :: rest).filter (fun p => p.1 != k))
          = a :: rest.filter (fun p => p.1 != k) := by
        simp [List.filter_cons, hak]
      rw [hfilter]
      by_cases hak' : a.1 = k'
      · have : (a.1 == k') = true := by simp [hak']
        simp [List.find?, this]
      · have : (a.1 == k') = false := by simp [hak']
        simp [List.find?, this, ih]

theorem getField_insertField_ne (f : Fields) (k k' : String) (v : Value)
    (h : k' ≠ k) :
    getField (insertField f k v) k' = getField f k' := by
  unfold getField insertField
  rw [List.find?_append, find?_filter_ne f k k' h]
  cases hf : f.find? (fun p => p.1 == k') with
  | none =>
    have : ([(k, v)].find? (fun p => p.1 == k')) = none := by
      have : (k == k') = false := by
        simp
        exact fun hc => absurd hc.symm h
      simp [List.find?, this]
    simp [Option.orElse, this]
  | some p => simp [Option.orElse]

/-- Keys of a field map. -/
def fieldKeys (f : Fields) : List String := f.map Prod.fst

theorem insertField_fresh_keys (f : Fields) (k : String) (v : Value)
    (h : k ∉ fieldKeys f) :
    fieldKeys (insertField f k v) = fieldKeys f ++ [k] := by
  unfold insertField fieldKeys
  have : f.filter (fun p => p.1 != k) = f := by
    rw [List.filter_eq_self]
    intro p hp
    simp
    intro hc
    exact h (by simpa [fieldKeys, hc] using List.mem_map_of_mem Prod.fst hp)
  rw [this]
  simp

theorem insertField_fresh_length (f : Fields) (k : String) (v : Value)
    (h : k ∉ fieldKeys f) :
    (insertField f k v).length = f.length + 1 := by
  have := insertField_fresh_keys f k v h
  have hlen : (fieldKeys (insertField f k v)).length = (fieldKeys f ++ [k]).length := by
    rw [this]
  simpa [fieldKeys] using hlen

/-- The key the loop in `convertToFields` uses for element `x` at loop
index `i`: the string itself when the type assertion `x.(string)`
succeeds, otherwise the synthetic key `"invalid_key_<i>"`. -/
def keyOf (x : Value) (i : Nat) : String :=
  match x with
  | .str s => s
  | _ => "invalid_key_" ++ toString i

/-- The loop of `convertToFields`: consume two elements per iteration
(key at loop index `i`, then its value); a trailing lone element becomes
a key bound to the sentinel `"MISSING_VALUE"`. -/
def convertFieldsLoop : List Value → Nat → Fields → Fields
  | k :: v :: rest, i, acc => convertFieldsLoop rest (i + 2) (insertField acc (keyOf k i) v)
  | [k], i, acc => insertField acc (keyOf k i) (.str "MISSING_VALUE")
  | [], _, acc => acc

/-- `convertToFields` from the source: turn a flat variadic key/value
sequence into a `Fields` map. -/
def convertToFields (pairs : List Value) : Fields :=
  convertFieldsLoop pairs 0 []

/-- The sequence of keys the `convertToFields` loop writes, in write
order, when started at loop index `i`. -/
def goKeys : List Value → Nat → List String
  | k :: _ :: rest, i => keyOf k i :: goKeys rest (i + 2)
  | [k], i => [keyOf k i]
  | [], _ => []

/-- Two-step structural induction on lists. -/
theorem twoStepList {α : Type} {motive : List α → Prop}
    (h0 : motive []) (h1 : ∀ a, motive [a])
    (h2 : ∀ a b l, motive l → motive (a :: b :: l)) :
    ∀ l, motive l
  | [] => h0
  | [a] => h1 a
  | a :: b :: l => h2 a b l (twoStepList h0 h1 h2 l)

/-- A key the loop never writes is left untouched. -/
theorem convertFieldsLoop_getField_stable (pairs : List Value) :
    ∀ (i : Nat) (acc : Fields) (k : String), k ∉ goKeys pairs i →
      getField (convertFieldsLoop pairs i acc) k = getField acc k := by
  induction pairs using twoStepList with
  | h0 => intro i acc k _; rfl
  | h1 a =>
    intro i acc k hk
    have hne : k ≠ keyOf a i := by simpa [goKeys] using hk
    simpa [convertFieldsLoop] using getField_insertField_ne acc (keyOf a i) k _ hne
  | h2 a b rest ih =>
    intro i acc k hk
    have hk1 : k ≠ keyOf a i := by
      intro hc; exact hk (by simp [goKeys, hc])
    have hk2 : k ∉ goKeys rest (i + 2) := by
      intro hc; exact hk (by simp [goKeys, hc])
    have := ih (i + 2) (insertField acc (keyOf a i) b) k hk2
    simpa [convertFieldsLoop, this]
      using getField_insertField_ne acc (keyOf a i) k b hk1

theorem goKeys_length (pairs : List Value) :
    ∀ i : Nat, (goKeys pairs i).length = (pairs.length + 1) / 2 := by
  induction pairs using twoStepList with
  | h0 => intro i; rfl
  | h1 a => intro i; simp [goKeys]
  | h2 a b rest ih =>
    intro i
    simp only [goKeys, List.length_cons, ih (i + 2)]
    omega

/-- With pairwise-distinct written keys, all fresh for `acc`, the loop
adds exactly one map entry per written key. -/
theorem convertFieldsLoop_length (pairs : List Value) :
    ∀ (i : Nat) (acc : Fields), (goKeys pairs i).Nodup →
      (∀ k ∈ goKeys pairs i, k ∉ fieldKeys acc) →
      (convertFieldsLoop pairs i acc).length = acc.length + (goKeys pairs i).length := by
  induction pairs using twoStepList with
  | h0 => intro i acc _ _; rfl
  | h1 a =>
    intro i acc _ hfresh
    have : keyOf a i ∉ fieldKeys acc := hfresh _ (by simp [goKeys])
    simp [convertFieldsLoop, goKeys, insertField_fresh_length acc (keyOf a i) _ this]
  | h2 a b rest ih =>
    intro i acc hnd hfresh
    have hhead : keyOf a i ∉ fieldKeys acc := hfresh _ (by simp [goKeys])
    have hnd' : (goKeys rest (i + 2)).Nodup := by
      simpa [goKeys] using hnd.of_cons
    have hhead_tail : keyOf a i ∉ goKeys rest (i + 2) := by
      have := hnd
      simp [goKeys, List.nodup_cons] at this
      exact this.1
    have hfresh' : ∀ k ∈ goKeys rest (i + 2),
        k ∉ fieldKeys (insertField acc (keyOf a i) b) := by
      intro k hk
      rw [insertField_fresh_keys acc (keyOf a i) b hhead]
      intro hmem
      rcases List.mem_append.mp hmem with hin | hin
      · exact hfresh k (by simp [goKeys, hk]) hin
      · have : k = keyOf a i := by simpa using hin
        exact hhead_tail (this ▸ hk)
    have := ih (i + 2) (insertField acc (keyOf a i) b) hnd' hfresh'
    simp only [convertFieldsLoop, goKeys, List.length_cons] at this ⊢
    rw [this, insertField_fresh_length acc (keyOf a i) b hhead]
    omega

/-- A complete pair with a string key at even offset `2*j`, whose key is
not rewritten by any later loop iteration, ends up in the map. -/
theorem convertFieldsLoop_getField_hit (pairs : List Value) :
    ∀ (i : Nat) (acc : Fields) (j : Nat) (s : String) (v : Value),
      (goKeys pairs i).Nodup →
      pairs.get? (2 * j) = some (.str s) →
      pairs.get? (2 * j + 1) = some v →
      getField (convertFieldsLoop pairs i acc) s = some v := by
  induction pairs using twoStepList with
  | h0 => intro i acc j s v _ hks _; simp at hks
  | h1 a =>
    intro i acc j s v _ _ hv
    have : (2 : Nat) * j + 1 ≠ 0 := by omega
    rcases Nat.exists_eq_succ_of_ne_zero this with ⟨m, hm⟩
    rw [hm] at hv
    simp at hv
  | h2 a b rest ih =>
    intro i acc j s v hnd hks hv
    cases j with
    | zero =>
      simp at hks hv
      subst hv
      have hkey : keyOf a i = s := by rw [hks]; rfl
      have hnotin : s ∉ goKeys rest (i + 2) := by
        have := hnd
        simp [goKeys, List.nodup_cons] at this
        exact hkey ▸ this.1
      rw [convertFieldsLoop,
        convertFieldsLoop_getField_stable rest (i + 2) _ s hnotin, hkey]
      exact getField_insertField_self acc s b
    | succ j' =>
      have hks' : rest.get? (2 * j') = some (.str s) := by
        have : 2 * (j' + 1) = 2 * j' + 1 + 1 := by omega
        rw [this] at hks
        simpa using hks
      have hv' : rest.get? (2 * j' + 1) = some v := by
        have : 2 * (j' + 1) + 1 = 2 * j' + 1 + 1 + 1 := by omega
        rw [this] at hv
        simpa using hv
      have hnd' : (goKeys rest (i + 2)).Nodup := by
        simpa [goKeys] using hnd.of_cons
      exact ih (i + 2) (insertField acc (keyOf a i) b) j' s v hnd' hks' hv'

/-- C1 (counterexample): as stated the claim is false — when the same
string key occurs twice, the later pair overwrites the earlier one
(`fields[key] = value` on a map), so the map has fewer than half as many
entries as the input has elements and the first pair's value is not
retrievable under its key.  Input: `["a", 1, "a", 2]`. -/
theorem convertToFields_duplicate_keys_collapse :
    ¬ ((convertToFields [Value.str "a", Value.int 1, Value.str "a", Value.int 2]).length
          = ([Value.str "a", Value.int 1, Value.str "a", Value.int 2] : List Value).length / 2
        ∧ getField (convertToFields [Value.str "a", Value.int 1, Value.str "a", Value.int 2]) "a"
          = some (Value.int 1)) := by
  decide

/-- C1 (amended): for an even-length input whose even-index elements are
all strings and pairwise distinct as written keys, `convertToFields`
returns a map with exactly half as many entries as the input has
elements, and each value element is stored unchanged under its preceding
key. -/
theorem convertToFields_even_distinct_spec (pairs : List Value)
    (hev : pairs.length % 2 = 0)
    (_hstr : ∀ j : Nat, 2 * j < pairs.length →
      ∃ s, pairs.get? (2 * j) = some (Value.str s))
    (hnd : (goKeys pairs 0).Nodup) :
    (convertToFields pairs).length = pairs.length / 2 ∧
    ∀ (j : Nat) (s : String) (v : Value),
      pairs.get? (2 * j) = some (Value.str s) →
      pairs.get? (2 * j + 1) = some v →
      getField (convertToFields pairs) s = some v := by
  constructor
  · have hlen := convertFieldsLoop_length pairs 0 [] hnd
      (by intro k _ hc; simp [fieldKeys] at hc)
    rw [convertToFields, hlen, goKeys_length pairs 0]
    simp only [List.length_nil]
    omega
  · intro j s v hks hv
    exact convertFieldsLoop_getField_hit pairs 0 [] j s v hnd hks hv

/-- Witness for the amended C1 at `["a", 1, "b", 2]`. -/
theorem convertToFields_even_distinct_spec_witness :
    (convertToFields [Value.str "a", Value.int 1, Value.str "b", Value.int 2]).length = 2 ∧
    getField (convertToFields [Value.str "a", Value.int 1, Value.str "b", Value.int 2]) "a"
      = some (Value.int 1) := by
  have h := convertToFields_even_distinct_spec
    [Value.str "a", Value.int 1, Value.str "b", Value.int 2]
    (by decide)
    (by
      intro j hj
      have hj4 : 2 * j < 4 := by simpa using hj
      have : j = 0 ∨ j = 1 := by omega
      rcases this with rfl | rfl
      · exact ⟨"a", rfl⟩
      · exact ⟨"b", rfl⟩)
    (by decide)
  exact ⟨h.1, h.2 0 "a" (Value.int 1) rfl rfl⟩

theorem convertFieldsLoop_missing_value (pairs : List Value) :
    ∀ (i : Nat) (acc : Fields) (x : Value),
      pairs.length % 2 = 1 →
      pairs.get? (pairs.length - 1) = some x →
      getField (convertFieldsLoop pairs i acc) (keyOf x (i + pairs.length - 1))
        = some (.str "MISSING_VALUE") := by
  induction pairs using twoStepList with
  | h0 => intro i acc x h _; simp at h
  | h1 a =>
    intro i acc x _ hlast
    simp at hlast
    subst hlast
    simpa [convertFieldsLoop, Nat.add_sub_cancel]
      using getField_insertField_self acc (keyOf a i) (.str "MISSING_VALUE")
  | h2 a b rest ih =>
    intro i acc x hodd hlast
    have hrlen : rest.length % 2 = 1 := by
      simp only [List.length_cons] at hodd; omega
    have hrpos : 1 ≤ rest.length := by omega
    have hlast' : rest.get? (rest.length - 1) = some x := by
      have h1 : (a :: b :: rest).length - 1 = rest.length - 1 + 2 := by
        simp only [List.length_cons]; omega
      rw [h1] at hlast
      simpa using hlast
    have hidx : i + (a :: b :: rest).length - 1 = (i + 2) + rest.length - 1 := by
      simp only [List.length_cons]; omega
    rw [convertFieldsLoop, hidx]
    exact ih (i + 2) _ x hrlen hlast'

/-- C8: for every odd-length input, the final trailing element is treated
as a key — `keyOf` substitutes `"invalid_key_<n-1>"` when it is not a
string — and the resulting map binds that key to the sentinel
`"MISSING_VALUE"` (the trailing write happens last, so it always wins). -/
theorem convertToFields_odd_missing_value (pairs : List Value) (x : Value)
    (hodd : pairs.length % 2 = 1)
    (hlast : pairs.get? (pairs.length - 1) = some x) :
    getField (convertToFields pairs) (keyOf x (pairs.length - 1))
      = some (Value.str "MISSING_VALUE") := by
  have h := convertFieldsLoop_missing_value pairs 0 [] x hodd hlast
  simpa [convertToFields] using h

/-- Witness for C8 at the non-string singleton `[5]`: key
`"invalid_key_0"` gets `"MISSING_VALUE"`. -/
theorem convertToFields_odd_missing_value_witness :
    getField (convertToFields [Value.int 5]) (keyOf (Value.int 5) 0)
      = some (Value.str "MISSING_VALUE") :=
  convertToFields_odd_missing_value [Value.int 5] (Value.int 5) rfl rfl

theorem convertFieldsLoop_invalid_key_subst (pairs : List Value) :
    ∀ (i p : Nat) (acc : Fields),
      p % 2 = 0 → p + 1 < pairs.length →
      (∀ x, pairs.get? p = some x → x.isStr = false) →
      convertFieldsLoop pairs i acc
        = convertFieldsLoop
            (pairs.set p (Value.str ("invalid_key_" ++ toString (i + p)))) i acc := by
  induction pairs using twoStepList with
  | h0 =>
    intro i p acc _ hlt _
    simp only [List.length_nil] at hlt
    omega
  | h1 a =>
    intro i p acc _ hlt _
    simp only [List.length_cons, List.length_nil] at hlt
    omega
  | h2 a b rest ih =>
    intro i p acc hp hlt hns
    cases p with
    | zero =>
      have ha : a.isStr = false := hns a rfl
      have hkey : keyOf a i = "invalid_key_" ++ toString i := by
        cases a with
        | str s => simp [Value.isStr] at ha
        | err e => rfl
        | int n => rfl
      show convertFieldsLoop (a :: b :: rest) i acc
        = convertFieldsLoop
            (Value.str ("invalid_key_" ++ toString (i + 0)) :: b :: rest) i acc
      simp only [Nat.add_zero, convertFieldsLoop]
      rw [hkey]
      rfl
    | succ p1 =>
      cases p1 with
      | zero => omega
      | succ p' =>
        have hp' : p' % 2 = 0 := by omega
        have hlt' : p' + 1 < rest.length := by
          simp only [List.length_cons] at hlt
          omega
        have hns' : ∀ x, rest.get? p' = some x → x.isStr = false := by
          intro x hx
          exact hns x (by simpa using hx)
        show convertFieldsLoop (a :: b :: rest) i acc
          = convertFieldsLoop
              ((a :: b :: rest).set (p' + 2)
                (Value.str ("invalid_key_" ++ toString (i + (p' + 2))))) i acc
        have hidx : i + (p' + 2) = (i + 2) + p' := by omega
        rw [hidx]
        show convertFieldsLoop (a :: b :: rest) i acc
          = convertFieldsLoop
              (a :: b :: rest.set p'
                (Value.str ("invalid_key_" ++ toString ((i + 2) + p')))) i acc
        simp only [convertFieldsLoop]
        exact ih (i + 2) p' (insertField acc (keyOf a i) b) hp' hlt' hns'

/-- C9: a complete pair whose key element at even index `i` is not a
string is handled by substituting the synthetic key `"invalid_key_<i>"`
for it: `convertToFields` of the input equals `convertToFields` of the
input with that element literally replaced by the synthetic string key,
so the paired value at index `i + 1` is stored exactly as if the key had
been the string `"invalid_key_<i>"`. -/
theorem convertToFields_invalid_key_subst (pairs : List Value) (i : Nat)
    (hi : i % 2 = 0) (hlt : i + 1 < pairs.length)
    (hns : ∀ x, pairs.get? i = some x → x.isStr = false) :
    convertToFields pairs
      = convertToFields (pairs.set i (Value.str ("invalid_key_" ++ toString i))) := by
  have h := convertFieldsLoop_invalid_key_subst pairs 0 i [] hi hlt hns
  simpa [convertToFields] using h

/-- Witness for C9 at `[7, 1]`: the non-string key `7` at index 0 is
treated exactly like the string key `"invalid_key_0"`. -/
theorem convertToFields_invalid_key_subst_witness :
    convertToFields [Value.int 7, Value.int 1]
      = convertToFields [Value.str "invalid_key_0", Value.int 1] := by
  have h := convertToFields_invalid_key_subst [Value.int 7, Value.int 1] 0 rfl
    (by decide)
    (by
      intro x hx
      have hx7 : Value.int 7 = x := by simpa using hx
      rw [← hx7]
      rfl)
  simpa using h

/-- Logrus severity levels.  `toNat` gives the logrus numeric encoding:
lower number = more severe; a record at level `sv` is emitted iff
`sv.toNat ≤ threshold.toNat` (logrus `IsLevelEnabled`). -/
inductive Level where
  | panicLevel
  | fatalLevel
  | errorLevel
  | warnLevel
  | infoLevel
  | debugLevel
deriving DecidableEq

def Level.toNat : Level → Nat
  | .panicLevel => 0
  | .fatalLevel => 1
  | .errorLevel => 2
  | .warnLevel => 3
  | .infoLevel => 4
  | .debugLevel => 5

/-- A record emitted through the underlying writer. -/
structure Event where
  level : Level
  msg : String
  fields : Fields
deriving DecidableEq

/-- The process-wide mutable state: the shared `baseLogger`'s severity
threshold, the stream of emitted records, and the exceptions captured on
the Sentry hub. -/
structure World where
  level : Level
  emitted : List Event
  captured : List GoError
deriving DecidableEq

/-- The state `init` leaves behind: threshold `DebugLevel`, nothing
emitted, nothing captured. -/
def initialWorld : World := ⟨Level.debugLevel, [], []⟩

/-- A Sentry span as resolved by `Log`: its trace-id and span-id already
rendered as hex strings (`span.TraceID.String()`, `span.SpanID.String()`;
an all-zero id renders as a string of `'0'` characters). -/
structure Span where
  traceID : String
  spanID : String
deriving DecidableEq

/-- A `context.Context` as this package observes it: whether a Sentry hub
is reachable via `ctx.Value(sentry.HubContextKey)`, and the Sentry span
reachable from the (possibly unwrapped) context, if any. -/
structure Ctx where
  hub : Bool
  span : Option Span
deriving DecidableEq

/-- `isIdNull` from the source: an id string is null when it is empty or
consists entirely of the character `'0'`. -/
def isIdNull (id : String) : Bool :=
  if id.length = 0 then true
  else id.data.all (fun c => c = '0')

/-- The `Logger` struct: the entry's accumulated field data and the
carried context.  (The entry's back-pointer to the shared `baseLogger` is
the `World`.) -/
structure Logger where
  entry : Fields
  ctx : Option Ctx
deriving DecidableEq

/-- `Log` from the source: start from a fresh entry on the shared base
logger, and attach `traceID`/`spanID` fields only when a span is
reachable from the context and neither resolved id is null. -/
def Log (ctx : Option Ctx) : Logger :=
  let fields : Fields :=
    match ctx with
    | none => []
    | some c =>
      match c.span with
      | none => []
      | some sp =>
        if !isIdNull sp.traceID && !isIdNull sp.spanID then
          insertField (insertField [] TraceIdLogKeyName (.str sp.traceID))
            SpanIdLogKeyName (.str sp.spanID)
        else []
  { entry := withFields [] fields, ctx := ctx }

/-- `SetLevel` from the source: sets the shared base logger's threshold
(`l.Entry.Logger.SetLevel`) — a process-wide effect — and returns the
same handle. -/
def Logger.SetLevelW (l : Logger) (lv : Level) (w : World) : World × Logger :=
  ({ w with level := lv }, l)

/-- `WithValues` from the source: a new handle whose entry data is the
parent's data with the converted pairs written on top. -/
def Logger.WithValues (l : Logger) (kvs : List Value) : Logger :=
  { entry := withFields l.entry (convertToFields kvs), ctx := l.ctx }

/-- `WithError` from the source: a new handle with the error object
itself stored under the key `"error"`. -/
def Logger.WithError (l : Logger) (e : GoError) : Logger :=
  { entry := insertField l.entry ErrorKey (.err e), ctx := l.ctx }

/-- The error values among a field map's values, in field order (the Go
loop `for _, value := range fields` with the `value.(error)` assertion). -/
def errValues (f : Fields) : List GoError :=
  f.filterMap (fun p =>
    match p.2 with
    | .err e => some e
    | _ => none)

/-- `captureErrors` from the source: no-op unless a hub is reachable from
the handle's context; otherwise capture the message (when non-empty) as a
fresh error, then capture every error-valued field of the handle's
accumulated entry data. -/
def Logger.captureErrors (l : Logger) (msg : String) (w : World) : World :=
  match l.ctx with
  | none => w
  | some c =>
    if c.hub then
      let w1 := if msg = "" then w else { w with captured := w.captured ++ [⟨msg⟩] }
      { w1 with captured := w1.captured ++ errValues l.entry }
    else w

/-- Emission through the shared logrus writer: the record is appended iff
its severity passes the current threshold (`IsLevelEnabled`). -/
def emit (w : World) (sv : Level) (msg : String) (f : Fields) : World :=
  if sv.toNat ≤ w.level.toNat then
    { w with emitted := w.emitted ++ [⟨sv, msg, f⟩] }
  else w

/-- The shared tail of every emit method: merge the variadic pairs into
the handle's fields, add the `caller` field, and emit at severity `sv`. -/
def Logger.logAt (l : Logger) (sv : Level) (msg : String) (kvs : List Value)
    (caller : String) (w : World) : World :=
  emit w sv msg
    (insertField (withFields l.entry (convertToFields kvs)) "caller" (.str caller))

/-- `Debug` from the source. -/
def Logger.DebugW (l : Logger) (msg : String) (kvs : List Value)
    (caller : String) (w : World) : World :=
  l.logAt .debugLevel msg kvs caller w

/-- `Info` from the source. -/
def Logger.InfoW (l : Logger) (msg : String) (kvs : List Value)
    (caller : String) (w : World) : World :=
  l.logAt .infoLevel msg kvs caller w

/-- `Warn` from the source. -/
def Logger.WarnW (l : Logger) (msg : String) (kvs : List Value)
    (caller : String) (w : World) : World :=
  l.logAt .warnLevel msg kvs caller w

/-- `Error` from the source: `captureErrors` first, then emit. -/
def Logger.ErrorW (l : Logger) (msg : String) (kvs : List Value)
    (caller : String) (w : World) : World :=
  l.logAt .errorLevel msg kvs caller (l.captureErrors msg w)

/-- `Fatal` from the source (the subsequent process exit is outside the
state model). -/
def Logger.FatalW (l : Logger) (msg : String) (kvs : List Value)
    (caller : String) (w : World) : World :=
  l.logAt .fatalLevel msg kvs caller (l.captureErrors msg w)

/-- `Panic` from the source (the subsequent stack unwind is outside the
state model). -/
def Logger.PanicW (l : Logger) (msg : String) (kvs : List Value)
    (caller : String) (w : World) : World :=
  l.logAt .panicLevel msg kvs caller (l.captureErrors msg w)

theorem emit_captured (w : World) (sv : Level) (msg : String) (f : Fields) :
    (emit w sv msg f).captured = w.captured := by
  unfold emit
  split <;> rfl

theorem captureErrors_emitted (l : Logger) (msg : String) (w : World) :
    (l.captureErrors msg w).emitted = w.emitted := by
  unfold Logger.captureErrors
  cases l.ctx with
  | none => rfl
  | some c =>
    by_cases h : c.hub = true
    · simp only [h, if_true]
      by_cases hm : msg = "" <;> simp [hm]
    · simp only [Bool.not_eq_true] at h
      simp [h]

theorem captureErrors_level (l : Logger) (msg : String) (w : World) :
    (l.captureErrors msg w).level = w.level := by
  unfold Logger.captureErrors
  cases l.ctx with
  | none => rfl
  | some c =>
    by_cases h : c.hub = true
    · simp only [h, if_true]
      by_cases hm : msg = "" <;> simp [hm]
    · simp only [Bool.not_eq_true] at h
      simp [h]

/-- C3: `withValues(k, v1)` returns a handle whose field for `k` is `v1`,
and `withValues(k, v2)` on that handle returns a handle whose field for
`k` is `v2`.  Chaining never mutates a previously returned handle: this
is by construction in the embedding, because `logrus.Entry.WithFields`
copies the parent's field map (`Logger.WithValues` is a pure function of
the parent handle), so the first handle's lookup — stated after the
second handle is built — is the unchanged `some v1`, and the original
handle `l` is untouched. -/
theorem withValues_override_preserves_parent (l : Logger) (k : String) (v1 v2 : Value) :
    getField (l.WithValues [Value.str k, v1]).entry k = some v1 ∧
    getField ((l.WithValues [Value.str k, v1]).WithValues [Value.str k, v2]).entry k
      = some v2 := by
  refine ⟨?_, ?_⟩
  · show getField (insertField l.entry k v1) k = some v1
    exact getField_insertField_self l.entry k v1
  · show getField (insertField (insertField l.entry k v1) k v2) k = some v2
    exact getField_insertField_self _ k v2

theorem Log_entry_span (hub : Bool) (sp : Span) :
    (Log (some ⟨hub, some sp⟩)).entry
      = if !isIdNull sp.traceID && !isIdNull sp.spanID then
          [(TraceIdLogKeyName, Value.str sp.traceID),
           (SpanIdLogKeyName, Value.str sp.spanID)]
        else [] := by
  by_cases ht : isIdNull sp.traceID <;> by_cases hs : isIdNull sp.spanID <;>
    simp [Log, ht, hs] <;> rfl

/-- C4: for a context carrying a span, if the resolved trace-id or
span-id string is null (empty or all `'0'`), the handle returned by `Log`
carries no `traceID` and no `spanID` field; otherwise its entry carries
exactly the resolved trace-id under `traceID` and the resolved span-id
under `spanID`. -/
theorem log_trace_span_fields (hub : Bool) (sp : Span) :
    ((isIdNull sp.traceID = true ∨ isIdNull sp.spanID = true) →
        getField (Log (some ⟨hub, some sp⟩)).entry TraceIdLogKeyName = none ∧
        getField (Log (some ⟨hub, some sp⟩)).entry SpanIdLogKeyName = none) ∧
    ((isIdNull sp.traceID = false ∧ isIdNull sp.spanID = false) →
        (Log (some ⟨hub, some sp⟩)).entry
          = [(TraceIdLogKeyName, Value.str sp.traceID),
             (SpanIdLogKeyName, Value.str sp.spanID)] ∧
        getField (Log (some ⟨hub, some sp⟩)).entry TraceIdLogKeyName
          = some (Value.str sp.traceID) ∧
        getField (Log (some ⟨hub, some sp⟩)).entry SpanIdLogKeyName
          = some (Value.str sp.spanID)) := by
  have hent := Log_entry_span hub sp
  constructor
  · intro h
    have hcond : (!isIdNull sp.traceID && !isIdNull sp.spanID) = false := by
      rcases h with h | h <;> simp [h]
    rw [hcond] at hent
    simp only [Bool.false_eq_true, if_false] at hent
    rw [hent]
    exact ⟨rfl, rfl⟩
  · intro h
    have hcond : (!isIdNull sp.traceID && !isIdNull sp.spanID) = true := by
      simp [h.1, h.2]
    rw [hcond] at hent
    simp only [if_true] at hent
    rw [hent]
    refine ⟨rfl, ?_, ?_⟩
    · rfl
    · show getField
        (insertField (insertField [] TraceIdLogKeyName (Value.str sp.traceID))
          SpanIdLogKeyName (Value.str sp.spanID)) SpanIdLogKeyName
        = some (Value.str sp.spanID)
      exact getField_insertField_self _ _ _

/-- Witness for C4 at the W3C example ids (non-null) taken from the
spec, on the "otherwise" branch. -/
theorem log_trace_span_fields_witness :
    (Log (some ⟨false, some ⟨"4bf92f3577b34da6a3ce929d0e0e4736", "00f067aa0ba902b7"⟩⟩)).entry
      = [(TraceIdLogKeyName, Value.str "4bf92f3577b34da6a3ce929d0e0e4736"),
         (SpanIdLogKeyName, Value.str "00f067aa0ba902b7")] :=
  ((log_trace_span_fields false
      ⟨"4bf92f3577b34da6a3ce929d0e0e4736", "00f067aa0ba902b7"⟩).2
    (by decide)).1

theorem captureErrors_hub_captured (entry : Fields) (sp : Option Span)
    (msg : String) (w : World) :
    (Logger.captureErrors ⟨entry, some ⟨true, sp⟩⟩ msg w).captured
      = (w.captured ++ (if msg = "" then [] else [⟨msg⟩])) ++ errValues entry := by
  unfold Logger.captureErrors
  by_cases hm : msg = "" <;> simp [hm]

/-- C2 (counterexample): as stated the claim is false — `captureErrors`
scans only the handle's accumulated `Entry.Data`, which is read *before*
the variadic pairs are merged, so an error object passed among the pairs
of the `error` call itself belongs to the merged field set but is never
reported.  Input: empty handle with a reachable hub,
`error("m", "k", err("boom"))`. -/
theorem errorW_ignores_pair_fields :
    Value.err ⟨"boom"⟩ ∈
      (withFields ([] : Fields)
        (convertToFields [Value.str "k", Value.err ⟨"boom"⟩])).map Prod.snd ∧
    GoError.mk "boom" ∉
      (Logger.ErrorW ⟨[], some ⟨true, none⟩⟩ "m"
        [Value.str "k", Value.err ⟨"boom"⟩] "c" initialWorld).captured := by
  decide

/-- C2 (amended): on a handle whose context carries a reachable hub,
`error(msg, pairs...)` invokes the bridge with the handle's *accumulated*
field set only — the captured exceptions are exactly the non-empty
message followed by every error-valued field of the handle's entry; the
fields merged from the call's own pairs are not scanned. -/
theorem errorW_captures_entry_errors (entry : Fields) (sp : Option Span)
    (msg : String) (kvs : List Value) (caller : String) (w : World) :
    (Logger.ErrorW ⟨entry, some ⟨true, sp⟩⟩ msg kvs caller w).captured
      = (w.captured ++ (if msg = "" then [] else [⟨msg⟩])) ++ errValues entry := by
  rw [Logger.ErrorW, Logger.logAt, emit_captured]
  exact captureErrors_hub_captured entry sp msg w

/-- C5: the bridge runs only on the Error/Fatal/Panic paths.  On a handle
with no error-valued fields and a reachable hub, `error("boom")` captures
exactly one exception, carrying `"boom"`; `debug`, `info` and `warn` with
the same message capture none; `fatal` and `panic` capture the same one
exception as `error`. -/
theorem error_captures_debug_does_not (entry : Fields) (sp : Option Span)
    (caller : String) (w : World)
    (h : errValues entry = []) :
    (Logger.ErrorW ⟨entry, some ⟨true, sp⟩⟩ "boom" [] caller w).captured
        = w.captured ++ [⟨"boom"⟩] ∧
    (Logger.FatalW ⟨entry, some ⟨true, sp⟩⟩ "boom" [] caller w).captured
        = w.captured ++ [⟨"boom"⟩] ∧
    (Logger.PanicW ⟨entry, some ⟨true, sp⟩⟩ "boom" [] caller w).captured
        = w.captured ++ [⟨"boom"⟩] ∧
    (Logger.DebugW ⟨entry, some ⟨true, sp⟩⟩ "boom" [] caller w).captured
        = w.captured ∧
    (Logger.InfoW ⟨entry, some ⟨true, sp⟩⟩ "boom" [] caller w).captured
        = w.captured ∧
    (Logger.WarnW ⟨entry, some ⟨true, sp⟩⟩ "boom" [] caller w).captured
        = w.captured := by
  have hcap : (Logger.captureErrors ⟨entry, some ⟨true, sp⟩⟩ "boom" w).captured
      = w.captured ++ [⟨"boom"⟩] := by
    rw [captureErrors_hub_captured entry sp "boom" w, h]
    simp
  refine ⟨?_, ?_, ?_, ?_, ?_, ?_⟩
  · rw [Logger.ErrorW, Logger.logAt, emit_captured, hcap]
  · rw [Logger.FatalW, Logger.logAt, emit_captured, hcap]
  · rw [Logger.PanicW, Logger.logAt, emit_captured, hcap]
  · rw [Logger.DebugW, Logger.logAt, emit_captured]
  · rw [Logger.InfoW, Logger.logAt, emit_captured]
  · rw [Logger.WarnW, Logger.logAt, emit_captured]

/-- Witness for C5 on an empty handle with a reachable hub. -/
theorem error_captures_debug_does_not_witness :
    (Logger.ErrorW ⟨[], some ⟨true, none⟩⟩ "boom" [] "c" initialWorld).captured
        = [⟨"boom"⟩] ∧
    (Logger.DebugW ⟨[], some ⟨true, none⟩⟩ "boom" [] "c" initialWorld).captured
        = [] := by
  have h := error_captures_debug_does_not [] none "c" initialWorld rfl
  exact ⟨h.1, h.2.2.2.1⟩

theorem errValues_filter_nil (f : Fields) (q : String × Value → Bool)
    (h : errValues f = []) : errValues (f.filter q) = [] := by
  rw [errValues, List.filterMap_eq_nil_iff] at h ⊢
  intro p hp
  exact h p (List.mem_filter.mp hp).1

theorem errValues_insertField_err (f : Fields) (k : String) (e : GoError)
    (h : errValues f = []) :
    errValues (insertField f k (.err e)) = [e] := by
  rw [insertField, errValues, List.filterMap_append]
  have hfil := errValues_filter_nil f (fun p => p.1 != k) h
  rw [errValues] at hfil
  rw [hfil]
  rfl

/-- C6 (counterexample): as stated — quantified over *every* handle — the
claim is false: a handle that already holds a further error-valued field
reports three exceptions, not two.  Input: handle with field
`"k" ↦ err("prior")` and a reachable hub, then
`withError(err("e"))` followed by `error("msg")`. -/
theorem withError_error_three_captures :
    ¬ (((Logger.WithError ⟨[("k", Value.err ⟨"prior"⟩)], some ⟨true, none⟩⟩
          ⟨"e"⟩).ErrorW "msg" [] "c" initialWorld).captured.length = 2) := by
  decide

/-- C6 (amended): on a handle with *no error-valued fields* and a
reachable hub, `withError(e)` followed by `error("msg")` captures exactly
two exceptions: one synthesised from `"msg"`, one being `e` itself. -/
theorem withError_error_two_captures (entry : Fields) (sp : Option Span)
    (e : GoError) (caller : String) (w : World)
    (h : errValues entry = []) :
    ((Logger.WithError ⟨entry, some ⟨true, sp⟩⟩ e).ErrorW "msg" [] caller w).captured
      = w.captured ++ [⟨"msg"⟩, e] := by
  show (Logger.ErrorW ⟨insertField entry ErrorKey (.err e), some ⟨true, sp⟩⟩
      "msg" [] caller w).captured = w.captured ++ [⟨"msg"⟩, e]
  rw [Logger.ErrorW, Logger.logAt, emit_captured,
    captureErrors_hub_captured (insertField entry ErrorKey (.err e)) sp "msg" w,
    errValues_insertField_err entry ErrorKey e h]
  simp

/-- Witness for the amended C6 on an empty handle. -/
theorem withError_error_two_captures_witness :
    ((Logger.WithError ⟨[], some ⟨true, none⟩⟩ ⟨"e"⟩).ErrorW "msg" [] "c"
        initialWorld).captured
      = [⟨"msg"⟩, ⟨"e"⟩] :=
  withError_error_two_captures [] none ⟨"e"⟩ "c" initialWorld rfl

/-- C7: the severity threshold is process-wide shared state — after
`setLevel(L)` through one handle, a handle obtained afterwards via the
entry point `Log` has its emissions at severities below `L` (logrus
numeric value greater than `L`'s) suppressed. -/
theorem setLevel_filters_future_handles (w : World) (l0 : Logger) (L : Level)
    (ctx : Option Ctx) (sv : Level) (msg : String) (kvs : List Value)
    (caller : String) (h : L.toNat < sv.toNat) :
    ((Log ctx).logAt sv msg kvs caller (l0.SetLevelW L w).1).emitted
      = (l0.SetLevelW L w).1.emitted := by
  rw [Logger.logAt, emit]
  have hlev : (l0.SetLevelW L w).1.level = L := rfl
  rw [hlev, if_neg (by omega : ¬ sv.toNat ≤ L.toNat)]

/-- Witness for C7: threshold set to Error through one handle, then a
debug emission through a fresh handle is suppressed. -/
theorem setLevel_filters_future_handles_witness :
    ((Log none).logAt Level.debugLevel "hi" [] "c"
        ((Log none).SetLevelW Level.errorLevel initialWorld).1).emitted
      = ((Log none).SetLevelW Level.errorLevel initialWorld).1.emitted :=
  setLevel_filters_future_handles initialWorld (Log none) Level.errorLevel none
    Level.debugLevel "hi" [] "c" (by decide)

/-- C10 (implicit): `setLevel` through any one handle `h1` changes the
threshold observed by *every* handle, including `h2` created before the
call, because every handle's entry points at the same shared base
logger: after `h1.setLevel(L)`, an emission through `h2` at severity `sv`
is appended exactly when `sv` passes threshold `L`, and suppressed
otherwise. -/
theorem setLevel_filters_existing_handles (h1 h2 : Logger) (L : Level) (w : World)
    (sv : Level) (msg : String) (kvs : List Value) (caller : String) :
    (h2.logAt sv msg kvs caller (h1.SetLevelW L w).1).emitted
      = if sv.toNat ≤ L.toNat
        then (h1.SetLevelW L w).1.emitted
          ++ [⟨sv, msg,
              insertField (withFields h2.entry (convertToFields kvs)) "caller"
                (.str caller)⟩]
        else (h1.SetLevelW L w).1.emitted := by
  rw [Logger.logAt, emit]
  have hlev : (h1.SetLevelW L w).1.level = L := rfl
  rw [hlev]
  by_cases hc : sv.toNat ≤ L.toNat <;> simp [hc]
